import Mathlib

/-!
Verification of the Minecraft server-ping subsystem of the kybes-bot
repository: varint codec, length-prefixed string codec, packet framing,
host resolution, connection establishment and rich-text extraction.

The Rust sources are shallowly embedded: byte buffers become `List Nat`
(each element a byte value), machine integers become `Nat`/`Int` with
explicit reductions modulo `2^32` / `2^64` where the source relies on
wrapping casts, and a Rust `panic!` is modelled as the `none` case of an
`Option`-valued result.  Fuel-based recursion is used where Rust uses an
unbounded loop, with fuel chosen so that it never runs out on the loop's
actual domain.
-/

/-- Unsigned reinterpretation of a signed integer at width `W`
(the Rust casts `as u32` / `as u64` applied to an `i32` / `i64`). -/
def toUnsigned (W : Nat) (v : Int) : Nat := (v % (2 : Int) ^ W).toNat

/-- Signed reinterpretation of a `W`-bit pattern
(the Rust casts `as i32` / `as i64` applied to a `u32` / `u64`). -/
def toSigned (W : Nat) (n : Nat) : Int :=
  if n % 2 ^ W < 2 ^ (W - 1) then ((n % 2 ^ W : Nat) : Int)
  else ((n % 2 ^ W : Nat) : Int) - 2 ^ W

/-- The Rust cast `as usize` applied to a signed value (64-bit target). -/
def intAsUsize (v : Int) : Nat := (v % (2 : Int) ^ 64).toNat

/-- Fuelled form of the encoding loop shared by `write_var_int` and
`write_var_long` (src/utils/server/varint.rs, lines 67-93): emit the low
7 bits, with the continuation bit `0x80` if more bits remain, shifting
right by 7 until the value fits in 7 bits.  The fuel only needs to be at
least the number of iterations; `writeVarLoop` supplies `n` itself, which
always suffices since the value strictly decreases each iteration. -/
def writeVarLoopF : Nat → Nat → List Nat
  | 0, n => [n % 128]
  | fuel + 1, n =>
    if n < 128 then [n]
    else (n % 128 + 128) :: writeVarLoopF fuel (n / 128)

/-- The encoding loop of `write_var_int` / `write_var_long` on the
unsigned reinterpretation of the input. -/
def writeVarLoop (n : Nat) : List Nat := writeVarLoopF n n

/-- Embedding of `write_var_int` (src/utils/server/varint.rs, lines
81-93): appends the varint encoding of `value as u32` to the buffer. -/
def write_var_int (buf : List Nat) (value : Int) : List Nat :=
  buf ++ writeVarLoop (toUnsigned 32 value)

/-- Embedding of `write_var_long` (src/utils/server/varint.rs, lines
67-79): appends the varint encoding of `value as u64` to the buffer. -/
def write_var_long (buf : List Nat) (value : Int) : List Nat :=
  buf ++ writeVarLoop (toUnsigned 64 value)

/-- Decoding loop shared by `read_var_int` (width 32) and
`read_var_int_long` (width 64): walks the byte list (the suffix of the
buffer starting at the caller's cursor), OR-ing each byte's low 7 bits
shifted by the running position into the accumulator, exactly as the
Rust loop does on `i32` / `i64` (shifted bits above the width are
discarded by the cast, hence the reduction modulo `2 ^ W`).  Returns
`none` for the `panic!("var_int is too big")` reached when the position
would pass the width, and otherwise the accumulated bit pattern together
with the amount the caller's cursor advances (one past the terminating
byte, or one past the end of the buffer when it is exhausted first,
mirroring the unconditional `*offset += 1` after the loop). -/
def readVarLoop (W : Nat) : List Nat → Nat → Nat → Option (Nat × Nat)
  | [], value, _pos => some (value, 1)
  | b :: rest, value, pos =>
    let value' := value ||| ((b % 128) <<< pos % 2 ^ W)
    if b % 256 < 128 then some (value', 1)
    else if W ≤ pos + 7 then none
    else
      match readVarLoop W rest value' (pos + 7) with
      | none => none
      | some (v, d) => some (v, d + 1)

/-- Embedding of `read_var_int` (src/utils/server/varint.rs, lines
39-64): decodes a 32-bit varint from `data` starting at `offset`,
returning the decoded `i32` and the updated cursor, or `none` for the
panic on an over-long encoding. -/
def read_var_int (data : List Nat) (offset : Nat) : Option (Int × Nat) :=
  match readVarLoop 32 (data.drop offset) 0 0 with
  | none => none
  | some (v, d) => some (toSigned 32 v, offset + d)

/-- Embedding of `read_var_int_long` (src/utils/server/varint.rs, lines
12-37): the 64-bit variant of `read_var_int`. -/
def read_var_int_long (data : List Nat) (offset : Nat) : Option (Int × Nat) :=
  match readVarLoop 64 (data.drop offset) 0 0 with
  | none => none
  | some (v, d) => some (toSigned 64 v, offset + d)

/-- Embedding of `read_var_int_from_stream` (src/utils/server/varint.rs,
lines 95-111).  The stream is modelled as the list of bytes it will
deliver; reading a byte takes the head, and an exhausted stream is the
`read_u8` I/O error propagated by `?` (the `Except.error` case).  The
loop has no length cap; however once a sixth byte is read the shift
amount `7 * num_read` reaches 35 ≥ 32, which overflows the `u32` shift
and panics (modelled as the outer `none`). -/
def read_var_int_from_stream :
    List Nat → Nat → Nat → Option (Except Unit (Int × List Nat))
  | [], _numRead, _value => some (Except.error ())
  | b :: rest, numRead, value =>
    if 32 ≤ 7 * numRead then none
    else
      let value' := value ||| ((b % 128) <<< (7 * numRead) % 2 ^ 32)
      if b % 256 < 128 then some (Except.ok (toSigned 32 value', rest))
      else read_var_int_from_stream rest (numRead + 1) value'

theorem toUnsigned_lt (W : Nat) (v : Int) : toUnsigned W v < 2 ^ W := by
  have hpos : (0 : Int) < 2 ^ W := by positivity
  have h := Int.emod_lt_of_pos v hpos
  have h0 := Int.emod_nonneg v (ne_of_gt hpos)
  have hcast : ((2 ^ W : Nat) : Int) = (2 : Int) ^ W := by push_cast; ring
  unfold toUnsigned
  omega

/-- Round-trip of the signed and unsigned reinterpretations on the
representable range. -/
theorem toSigned_toUnsigned (W : Nat) (hW : 1 ≤ W) (v : Int)
    (h1 : -(2 : Int) ^ (W - 1) ≤ v) (h2 : v < 2 ^ (W - 1)) :
    toSigned W (toUnsigned W v) = v := by
  have hpow : (2 : Int) ^ W = 2 ^ (W - 1) * 2 := by
    rw [← pow_succ]
    congr 1
    omega
  have hpowN : (2 : Nat) ^ W = 2 ^ (W - 1) * 2 := by
    rw [← pow_succ]
    congr 1
    omega
  have hhpos : (0 : Int) < 2 ^ (W - 1) := by positivity
  rcases le_or_lt 0 v with hv | hv
  · have hlt : v < (2 : Int) ^ W := by omega
    have hmod : v % (2 : Int) ^ W = v := Int.emod_eq_of_lt hv hlt
    have htn : ((toUnsigned W v : Nat) : Int) = v := by
      unfold toUnsigned
      rw [hmod]
      exact Int.toNat_of_nonneg hv
    have hnlt : toUnsigned W v < 2 ^ (W - 1) := by
      have : ((toUnsigned W v : Nat) : Int) < ((2 ^ (W - 1) : Nat) : Int) := by
        rw [htn]
        push_cast
        omega
      exact_mod_cast this
    have hmodn : toUnsigned W v % 2 ^ W = toUnsigned W v :=
      Nat.mod_eq_of_lt (by omega)
    unfold toSigned
    rw [hmodn, if_pos hnlt, htn]
  · have hge : (0 : Int) ≤ v + 2 ^ W := by omega
    have hlt : v + (2 : Int) ^ W < 2 ^ W := by omega
    have hmod : v % (2 : Int) ^ W = v + 2 ^ W := by
      have : (v + 2 ^ W * 1) % (2 : Int) ^ W = v % 2 ^ W :=
        Int.add_mul_emod_self_left v (2 ^ W) 1
      rw [mul_one] at this
      rw [← this, Int.emod_eq_of_lt hge (by omega)]
    have htn : ((toUnsigned W v : Nat) : Int) = v + 2 ^ W := by
      unfold toUnsigned
      rw [hmod]
      exact Int.toNat_of_nonneg hge
    have hnotlt : ¬ toUnsigned W v < 2 ^ (W - 1) := by
      intro hcon
      have : ((toUnsigned W v : Nat) : Int) < ((2 ^ (W - 1) : Nat) : Int) := by
        exact_mod_cast hcon
      rw [htn] at this
      push_cast at this
      omega
    have hmodn : toUnsigned W v % 2 ^ W = toUnsigned W v := by
      apply Nat.mod_eq_of_lt
      have : ((toUnsigned W v : Nat) : Int) < ((2 ^ W : Nat) : Int) := by
        rw [htn]
        push_cast
        omega
      exact_mod_cast this
    unfold toSigned
    rw [hmodn, if_neg hnotlt, htn]
    ring

theorem writeVarLoopF_length_pos (fuel n : Nat) : 0 < (writeVarLoopF fuel n).length := by
  cases fuel with
  | zero => simp [writeVarLoopF]
  | succ f =>
    unfold writeVarLoopF
    split <;> simp

/-- OR-ing disjoint bit ranges is addition. -/
theorem lor_shiftLeft_eq_add (a b n : Nat) (h : a < 2 ^ n) :
    a ||| b <<< n = a + b * 2 ^ n := by
  rw [Nat.shiftLeft_eq, Nat.lor_comm, mul_comm, ← Nat.mul_add_lt_is_or h b]
  omega

/-- Core round-trip of the varint decoding loop against the fuelled
encoding loop, with an arbitrary trailing buffer: decoding from the head
of `writeVarLoopF fuel n ++ rest` adds `n * 2 ^ pos` to the accumulator
and advances the cursor by exactly the number of encoded bytes. -/
theorem readVarLoop_writeVarLoopF (W : Nat) :
    ∀ fuel n acc pos (rest : List Nat), n ≤ fuel →
    acc < 2 ^ pos → n < 2 ^ (W - pos) →
    readVarLoop W (writeVarLoopF fuel n ++ rest) acc pos
      = some (acc + n * 2 ^ pos, (writeVarLoopF fuel n).length) := by
  intro fuel
  induction fuel with
  | zero =>
    intro n acc pos rest hfuel hacc hn
    have hn0 : n = 0 := by omega
    subst hn0
    simp only [writeVarLoopF, Nat.zero_mod, List.cons_append, readVarLoop,
      List.length_cons, List.length_nil]
    norm_num
  | succ f ih =>
    intro n acc pos rest hfuel hacc hn
    by_cases hsmall : n < 128
    · have hexp : writeVarLoopF (f + 1) n = [n] := by
        unfold writeVarLoopF
        rw [if_pos hsmall]
      rw [hexp]
      simp only [List.cons_append, List.nil_append, readVarLoop, List.length_cons,
        List.length_nil]
      have hmod128 : n % 128 = n := Nat.mod_eq_of_lt hsmall
      have hmod256 : n % 256 = n := Nat.mod_eq_of_lt (by omega)
      rw [if_pos (by omega : n % 256 < 128)]
      congr 2
      rw [hmod128]
      rcases le_or_lt pos W with hpw | hpw
      · have hshift : n <<< pos < 2 ^ W := by
          rw [Nat.shiftLeft_eq]
          calc n * 2 ^ pos < 2 ^ (W - pos) * 2 ^ pos := by
                apply Nat.mul_lt_mul_of_lt_of_le hn (le_refl _)
                positivity
            _ = 2 ^ W := by rw [← pow_add]; congr 1; omega
        rw [Nat.mod_eq_of_lt hshift, lor_shiftLeft_eq_add _ _ _ hacc]
      · have hz : W - pos = 0 := by omega
        rw [hz, pow_zero] at hn
        have : n = 0 := by omega
        subst this
        simp
    · have hexp : writeVarLoopF (f + 1) n = (n % 128 + 128) :: writeVarLoopF f (n / 128) := by
        rw [writeVarLoopF, if_neg hsmall]
      have hWpos : 7 < W - pos := by
        by_contra hcon
        have : (2 : Nat) ^ (W - pos) ≤ 2 ^ 7 := Nat.pow_le_pow_right (by omega) (by omega)
        omega
      rw [hexp]
      simp only [List.cons_append, readVarLoop, List.length_cons]
      have hb128 : (n % 128 + 128) % 128 = n % 128 := by omega
      have hb256 : (n % 128 + 128) % 256 = n % 128 + 128 := Nat.mod_eq_of_lt (by omega)
      rw [if_neg (by omega : ¬ (n % 128 + 128) % 256 < 128),
        if_neg (by omega : ¬ W ≤ pos + 7)]
      have hacc' : acc ||| ((n % 128 + 128) % 128) <<< pos % 2 ^ W
          = acc + n % 128 * 2 ^ pos := by
        rw [hb128]
        have hsh2 : (n % 128) <<< pos % 2 ^ W = (n % 128) <<< pos := by
          rw [Nat.shiftLeft_eq]
          apply Nat.mod_eq_of_lt
          calc n % 128 * 2 ^ pos < 128 * 2 ^ pos := by
                apply Nat.mul_lt_mul_of_lt_of_le (Nat.mod_lt _ (by omega)) (le_refl _)
                positivity
            _ = 2 ^ (pos + 7) := by rw [pow_add]; ring
            _ ≤ 2 ^ W := Nat.pow_le_pow_right (by omega) (by omega)
        rw [hsh2, lor_shiftLeft_eq_add _ _ _ hacc]
      rw [hacc']
      have hdivfuel : n / 128 ≤ f := by
        have := Nat.div_lt_self (by omega : 0 < n) (by omega : 1 < 128)
        omega
      have haccbound : acc + n % 128 * 2 ^ pos < 2 ^ (pos + 7) := by
        have h1 : n % 128 < 128 := Nat.mod_lt _ (by omega)
        have h2 : n % 128 * 2 ^ pos ≤ 127 * 2 ^ pos := by
          apply Nat.mul_le_mul_right
          omega
        have h3 : (2 : Nat) ^ (pos + 7) = 128 * 2 ^ pos := by rw [pow_add]; ring
        omega
      have hdivbound : n / 128 < 2 ^ (W - (pos + 7)) := by
        rw [Nat.div_lt_iff_lt_mul (by omega : 0 < 128)]
        calc n < 2 ^ (W - pos) := hn
          _ = 2 ^ (W - (pos + 7)) * 128 := by
            rw [show (128 : Nat) = 2 ^ 7 from rfl, ← pow_add]
            congr 1
            omega
      simp only [List.append_eq]
      rw [ih (n / 128) (acc + n % 128 * 2 ^ pos) (pos + 7) rest hdivfuel haccbound hdivbound]
      dsimp only
      congr 2
      have hsplit : n % 128 + 128 * (n / 128) = n := Nat.mod_add_div n 128
      have hpow7 : (2 : Nat) ^ (pos + 7) = 2 ^ pos * 128 := by rw [pow_add]; ring
      calc acc + n % 128 * 2 ^ pos + n / 128 * 2 ^ (pos + 7)
          = acc + (n % 128 + 128 * (n / 128)) * 2 ^ pos := by rw [hpow7]; ring
        _ = acc + n * 2 ^ pos := by rw [hsplit]

/-- Specialisation of the round-trip lemma to the top-level entry with
full fuel and zero accumulator. -/
theorem readVarLoop_writeVarLoop (W n : Nat) (hn : n < 2 ^ W) (rest : List Nat) :
    readVarLoop W (writeVarLoop n ++ rest) 0 0 = some (n, (writeVarLoop n).length) := by
  unfold writeVarLoop
  have h := readVarLoop_writeVarLoopF W n n 0 0 rest (le_refl n) (by norm_num)
    (by simpa using hn)
  simpa using h

/-- C5: decoding the buffer produced by encoding any `i32` value returns
that value, and the same round-trip holds for the 64-bit variant over
every `i64`, boundary values included. -/
theorem varint_roundtrip :
    (∀ v : Int, -2 ^ 31 ≤ v → v < 2 ^ 31 →
      (read_var_int (write_var_int [] v) 0).map Prod.fst = some v) ∧
    (∀ v : Int, -2 ^ 63 ≤ v → v < 2 ^ 63 →
      (read_var_int_long (write_var_long [] v) 0).map Prod.fst = some v) := by
  constructor
  · intro v h1 h2
    have hu : toUnsigned 32 v < 2 ^ 32 := toUnsigned_lt 32 v
    have h := readVarLoop_writeVarLoop 32 (toUnsigned 32 v) hu []
    rw [List.append_nil] at h
    have hs : toSigned 32 (toUnsigned 32 v) = v := by
      apply toSigned_toUnsigned 32 (by norm_num) v
      · norm_num at h1 ⊢
        omega
      · norm_num at h2 ⊢
        omega
    unfold read_var_int write_var_int
    rw [List.nil_append, List.drop_zero, h]
    simp [hs]
  · intro v h1 h2
    have hu : toUnsigned 64 v < 2 ^ 64 := toUnsigned_lt 64 v
    have h := readVarLoop_writeVarLoop 64 (toUnsigned 64 v) hu []
    rw [List.append_nil] at h
    have hs : toSigned 64 (toUnsigned 64 v) = v := by
      apply toSigned_toUnsigned 64 (by norm_num) v
      · norm_num at h1 ⊢
        omega
      · norm_num at h2 ⊢
        omega
    unfold read_var_int_long write_var_long
    rw [List.nil_append, List.drop_zero, h]
    simp [hs]

/-- Witness for C5 at the extreme boundary values `i32::MIN` and
`i64::MIN`. -/
theorem varint_roundtrip_witness :
    (read_var_int (write_var_int [] (-2147483648)) 0).map Prod.fst
      = some (-2147483648) ∧
    (read_var_int_long (write_var_long [] (-9223372036854775808)) 0).map Prod.fst
      = some (-9223372036854775808) :=
  ⟨varint_roundtrip.1 (-2147483648) (by norm_num) (by norm_num),
   varint_roundtrip.2 (-9223372036854775808) (by norm_num) (by norm_num)⟩

/-- A run of bytes that all carry the continuation bit drives the
decoding loop into the panic once the position would reach the width. -/
theorem readVarLoop_cont_run_none (W : Nat) :
    ∀ (bs rest : List Nat) (acc pos : Nat), 1 ≤ bs.length →
    (∀ b ∈ bs, 128 ≤ b % 256) → W ≤ pos + 7 * bs.length →
    readVarLoop W (bs ++ rest) acc pos = none := by
  intro bs
  induction bs with
  | nil => intro rest acc pos hlen; simp at hlen
  | cons b bs' ih =>
    intro rest acc pos _hlen hcont hW
    have hb : 128 ≤ b % 256 := hcont b (List.mem_cons_self b bs')
    simp only [List.cons_append, readVarLoop]
    rw [if_neg (by omega : ¬ b % 256 < 128)]
    by_cases hstop : W ≤ pos + 7
    · rw [if_pos hstop]
    · rw [if_neg hstop]
      cases bs' with
      | nil => simp only [List.length_cons, List.length_nil] at hW; omega
      | cons c cs =>
        simp only [List.append_eq]
        rw [ih rest _ (pos + 7) (by simp) (fun x hx => hcont x (List.mem_cons_of_mem b hx))
          (by simp only [List.length_cons] at hW ⊢; omega)]

/-- Accumulator of the decoding loop over a byte run, mirroring the
value built up by `read_var_int` before the buffer runs out. -/
def accumBits (W : Nat) : List Nat → Nat → Nat → Nat
  | [], value, _pos => value
  | b :: rest, value, pos =>
    accumBits W rest (value ||| ((b % 128) <<< pos % 2 ^ W)) (pos + 7)

/-- On a buffer that is exhausted while every byte still carries the
continuation bit, the decoding loop accepts the bytes seen so far,
provided the position never reaches the width. -/
theorem readVarLoop_exhaust (W : Nat) :
    ∀ (bs : List Nat) (acc pos : Nat),
    (∀ b ∈ bs, 128 ≤ b % 256) → pos + 7 * bs.length < W →
    readVarLoop W bs acc pos = some (accumBits W bs acc pos, bs.length + 1) := by
  intro bs
  induction bs with
  | nil => intro acc pos _ _; simp [readVarLoop, accumBits]
  | cons b bs' ih =>
    intro acc pos hcont hW
    have hb : 128 ≤ b % 256 := hcont b (List.mem_cons_self b bs')
    simp only [readVarLoop, accumBits, List.length_cons]
    rw [if_neg (by omega : ¬ b % 256 < 128),
      if_neg (by simp only [List.length_cons] at hW; omega : ¬ W ≤ pos + 7),
      ih _ (pos + 7) (fun x hx => hcont x (List.mem_cons_of_mem b hx))
        (by simp only [List.length_cons] at hW; omega)]

/-- C2 (amended): when more than 5 bytes (32-bit) or 10 bytes (64-bit)
would be consumed without reaching a byte whose continuation bit is
clear, the buffer-based decoders panic ("var_int is too big", modelled
as `none`) instead of returning a typed recoverable error, and the
stream-based decoder performs no such length check at all — it panics
on shift overflow once a sixth byte is read. -/
theorem varint_too_long_panics :
    (∀ (bs rest : List Nat), bs.length = 5 → (∀ b ∈ bs, 128 ≤ b % 256) →
      read_var_int (bs ++ rest) 0 = none) ∧
    (∀ (bs rest : List Nat), bs.length = 10 → (∀ b ∈ bs, 128 ≤ b % 256) →
      read_var_int_long (bs ++ rest) 0 = none) ∧
    read_var_int_from_stream [128, 128, 128, 128, 128, 0] 0 0 = none := by
  refine ⟨?_, ?_, rfl⟩
  · intro bs rest hlen hcont
    unfold read_var_int
    rw [List.drop_zero, readVarLoop_cont_run_none 32 bs rest 0 0 (by omega) hcont (by omega)]
  · intro bs rest hlen hcont
    unfold read_var_int_long
    rw [List.drop_zero, readVarLoop_cont_run_none 64 bs rest 0 0 (by omega) hcont (by omega)]

/-- Witness for C2 (amended) on concrete over-long inputs. -/
theorem varint_too_long_panics_witness :
    read_var_int ([128, 128, 128, 128, 128] ++ [7]) 0 = none ∧
    read_var_int_long ([129, 130, 131, 132, 133, 134, 135, 136, 137, 138] ++ [7]) 0
      = none :=
  ⟨varint_too_long_panics.1 [128, 128, 128, 128, 128] [7] (by rfl) (by decide),
   varint_too_long_panics.2.1 [129, 130, 131, 132, 133, 134, 135, 136, 137, 138] [7]
     (by rfl) (by decide)⟩

/-- Counterexample for C2 as stated: six bytes, the first five with the
continuation bit set, make `read_var_int` abort (the modelled panic,
`none`) — no typed `VarIntTooLong` value is ever produced (no such error
type exists in the code). -/
theorem varint_too_long_claim_counterexample :
    read_var_int [128, 128, 128, 128, 128, 0] 0 = none := rfl

/-- C10 (amended): on a buffer of at most 4 bytes that is exhausted
before any byte with a clear continuation bit, `read_var_int` signals no
error: it returns the value accumulated so far (0 for the empty buffer)
and a cursor one past the buffer length.  (On 5 or more such bytes the
panic fires instead, see the C2 theorems.) -/
theorem truncated_varint_silently_accepted :
    ∀ data : List Nat, data.length ≤ 4 → (∀ b ∈ data, 128 ≤ b % 256) →
    read_var_int data 0
      = some (toSigned 32 (accumBits 32 data 0 0), data.length + 1) := by
  intro data hlen hcont
  unfold read_var_int
  rw [List.drop_zero, readVarLoop_exhaust 32 data 0 0 hcont (by omega)]
  simp

/-- Witness for C10 (amended): a single continuation byte and the empty
buffer are silently accepted with the cursor one past the end. -/
theorem truncated_varint_silently_accepted_witness :
    read_var_int [128] 0 = some (toSigned 32 (accumBits 32 [128] 0 0), 2) ∧
    read_var_int [] 0 = some (toSigned 32 (accumBits 32 [] 0 0), 1) :=
  ⟨truncated_varint_silently_accepted [128] (by decide) (by decide),
   truncated_varint_silently_accepted [] (by decide) (by decide)⟩

/-- Counterexample for C10 as stated: a buffer of five continuation
bytes is also exhausted before any terminating byte, yet `read_var_int`
does not return the accumulated value — it hits the "var_int is too big"
panic (modelled as `none`) on the fifth byte first. -/
theorem truncated_varint_claim_counterexample :
    read_var_int [128, 128, 128, 128, 128] 0 = none := rfl

/-- UTF-16 code-unit count as computed by `write_string`
(src/utils/server/string.rs, lines 24-27): each character counts 1 unit,
or 2 when it lies outside the Basic Multilingual Plane. -/
def utf16Len (s : List Char) : Nat :=
  (s.map fun c => if 0xFFFF < c.toNat then 2 else 1).sum

/-- UTF-8 encoding of one character, as in Rust's `str::as_bytes`. -/
def charUtf8 (c : Char) : List Nat :=
  let n := c.toNat
  if n < 0x80 then [n]
  else if n < 0x800 then [0xC0 + n / 64, 0x80 + n % 64]
  else if n < 0x10000 then [0xE0 + n / 4096, 0x80 + n / 64 % 64, 0x80 + n % 64]
  else [0xF0 + n / 262144, 0x80 + n / 4096 % 64, 0x80 + n / 64 % 64, 0x80 + n % 64]

/-- The UTF-8 byte sequence of a string (Rust `string.as_bytes()`). -/
def utf8Bytes (s : List Char) : List Nat := s.flatMap charUtf8

/-- Embedding of `write_string` (src/utils/server/string.rs, lines
23-36): computes the UTF-16 code-unit length, panics (modelled as
`none`) when it exceeds 32767, otherwise writes that count as a varint
followed by the raw UTF-8 bytes. -/
def write_string (buffer : List Nat) (s : List Char) : Option (List Nat) :=
  if 32767 < utf16Len s then none
  else some (write_var_int buffer ((utf16Len s : Nat) : Int) ++ utf8Bytes s)

/-- Decodes one UTF-8 scalar value from the head byte and the remaining
bytes, with exactly the validation Rust's `String::from_utf8` performs:
continuation bytes must lie in 0x80-0xBF, overlong forms, surrogates and
code points above 0x10FFFF are rejected.  Returns the decoded character
and the bytes that follow it. -/
def utf8DecodeOne (b0 : Nat) (rest : List Nat) : Option (Char × List Nat) :=
  if b0 < 0x80 then some (Char.ofNat b0, rest)
  else if b0 < 0xC2 then none
  else if b0 < 0xE0 then
    match rest with
    | b1 :: rest' =>
      if 0x80 ≤ b1 ∧ b1 < 0xC0 then
        some (Char.ofNat ((b0 - 0xC0) * 64 + (b1 - 0x80)), rest')
      else none
    | [] => none
  else if b0 < 0xF0 then
    match rest with
    | b1 :: b2 :: rest' =>
      if (if b0 = 0xE0 then 0xA0 ≤ b1 ∧ b1 < 0xC0
          else if b0 = 0xED then 0x80 ≤ b1 ∧ b1 < 0xA0
          else 0x80 ≤ b1 ∧ b1 < 0xC0) ∧ 0x80 ≤ b2 ∧ b2 < 0xC0 then
        some (Char.ofNat ((b0 - 0xE0) * 4096 + (b1 - 0x80) * 64 + (b2 - 0x80)), rest')
      else none
    | _ => none
  else if b0 < 0xF5 then
    match rest with
    | b1 :: b2 :: b3 :: rest' =>
      if (if b0 = 0xF0 then 0x90 ≤ b1 ∧ b1 < 0xC0
          else if b0 = 0xF4 then 0x80 ≤ b1 ∧ b1 < 0x90
          else 0x80 ≤ b1 ∧ b1 < 0xC0) ∧ 0x80 ≤ b2 ∧ b2 < 0xC0
          ∧ 0x80 ≤ b3 ∧ b3 < 0xC0 then
        some (Char.ofNat ((b0 - 0xF0) * 262144 + (b1 - 0x80) * 4096
          + (b2 - 0x80) * 64 + (b3 - 0x80)), rest')
      else none
    | _ => none
  else none

/-- Fuelled strict UTF-8 decoding loop: decodes scalar values one at a
time; each step consumes at least one byte, so fuel equal to the byte
count always suffices. -/
def utf8DecodeF : Nat → List Nat → Option (List Char)
  | _, [] => some []
  | 0, _ :: _ => none
  | fuel + 1, b0 :: rest =>
    match utf8DecodeOne b0 rest with
    | none => none
    | some (c, remaining) =>
      match utf8DecodeF fuel remaining with
      | none => none
      | some s => some (c :: s)

/-- Strict UTF-8 decoding, the model of Rust's `String::from_utf8`. -/
def utf8Decode (bs : List Nat) : Option (List Char) := utf8DecodeF bs.length bs

/-- The `io::ErrorKind` values `read_string` can produce. -/
inductive StringReadError
  | unexpectedEof
  | invalidData
deriving DecidableEq

/-- Embedding of `read_string` (src/utils/server/string.rs, lines 3-21):
reads a varint length prefix, interprets it as a byte count (`as usize`),
checks it against the remaining buffer, slices that many bytes out and
decodes them as UTF-8.  The outer `none` is the panic propagated from
`read_var_int`; the inner `Except` carries the function's own
`io::Error` results. -/
def read_string (data : List Nat) (index : Nat) :
    Option (Except StringReadError (List Char × Nat)) :=
  match read_var_int data index with
  | none => none
  | some (v, idx) =>
    let length := intAsUsize v
    if data.length < idx + length then some (Except.error StringReadError.unexpectedEof)
    else
      match utf8Decode ((data.drop idx).take length) with
      | none => some (Except.error StringReadError.invalidData)
      | some s => some (Except.ok (s, idx + length))

theorem utf16Len_ascii (s : List Char) (h : ∀ c ∈ s, c.toNat < 128) :
    utf16Len s = s.length := by
  induction s with
  | nil => rfl
  | cons c cs ih =>
    have hc : c.toNat < 128 := h c (List.mem_cons_self c cs)
    simp only [utf16Len, List.map_cons, List.sum_cons, List.length_cons] at *
    rw [if_neg (by omega : ¬ 0xFFFF < c.toNat)]
    rw [ih (fun x hx => h x (List.mem_cons_of_mem c hx))]
    omega

theorem utf8Bytes_ascii (s : List Char) (h : ∀ c ∈ s, c.toNat < 128) :
    utf8Bytes s = s.map Char.toNat := by
  induction s with
  | nil => rfl
  | cons c cs ih =>
    have hc : c.toNat < 128 := h c (List.mem_cons_self c cs)
    simp only [utf8Bytes, List.flatMap_cons, List.map_cons] at *
    rw [ih (fun x hx => h x (List.mem_cons_of_mem c hx))]
    unfold charUtf8
    rw [if_pos (by omega : c.toNat < 0x80)]
    rfl

theorem utf8DecodeOne_ascii (b : Nat) (hb : b < 128) (rest : List Nat) :
    utf8DecodeOne b rest = some (Char.ofNat b, rest) := by
  unfold utf8DecodeOne
  rw [if_pos (by omega : b < 0x80)]

theorem utf8DecodeF_ascii :
    ∀ (fuel : Nat) (s : List Char), (∀ c ∈ s, c.toNat < 128) →
    s.length ≤ fuel → utf8DecodeF fuel (s.map Char.toNat) = some s := by
  intro fuel
  induction fuel with
  | zero =>
    intro s h hlen
    cases s with
    | nil => rfl
    | cons c cs => simp at hlen
  | succ f ih =>
    intro s h hlen
    cases s with
    | nil => rfl
    | cons c cs =>
      have hc : c.toNat < 128 := h c (List.mem_cons_self c cs)
      rw [List.map_cons, utf8DecodeF, utf8DecodeOne_ascii c.toNat hc]
      dsimp only
      rw [ih cs (fun x hx => h x (List.mem_cons_of_mem c hx))
        (by simp only [List.length_cons] at hlen; omega)]
      dsimp only
      rw [Char.ofNat_toNat]

theorem utf8Decode_ascii (s : List Char) (h : ∀ c ∈ s, c.toNat < 128) :
    utf8Decode (s.map Char.toNat) = some s := by
  unfold utf8Decode
  rw [List.length_map]
  exact utf8DecodeF_ascii s.length s h (le_refl _)

theorem utf16Len_replicate (n : Nat) (c : Char) :
    utf16Len (List.replicate n c) = n * (if 0xFFFF < c.toNat then 2 else 1) := by
  induction n with
  | zero => simp [utf16Len]
  | succ m ih =>
    simp only [List.replicate_succ, utf16Len, List.map_cons, List.sum_cons] at *
    rw [ih]
    ring

theorem toUnsigned_ofNat (W n : Nat) (h : n < 2 ^ W) :
    toUnsigned W ((n : Nat) : Int) = n := by
  unfold toUnsigned
  rw [Int.emod_eq_of_lt (by positivity) (by exact_mod_cast h)]
  exact Int.toNat_natCast n

theorem toSigned_ofNat (W n : Nat) (hW : 1 ≤ W) (h : n < 2 ^ (W - 1)) :
    toSigned W n = (n : Int) := by
  have hlt : n < 2 ^ W := lt_of_lt_of_le h (Nat.pow_le_pow_right (by omega) (by omega))
  unfold toSigned
  rw [Nat.mod_eq_of_lt hlt, if_pos h]

theorem intAsUsize_ofNat (n : Nat) (h : n < 2 ^ 64) :
    intAsUsize ((n : Nat) : Int) = n := by
  unfold intAsUsize
  rw [Int.emod_eq_of_lt (by positivity) (by exact_mod_cast h)]
  exact Int.toNat_natCast n

/-- C1 (amended): the string round-trip holds for strings whose UTF-16
code-unit count equals their UTF-8 byte count — in particular all-ASCII
strings — of length at most 32767: `read_string` on the output of
`write_string` (cursor starting at 0) yields exactly the input string
and consumes the whole buffer.  (For non-ASCII strings the two counts
differ and the round-trip fails, see the counterexample.) -/
theorem string_roundtrip_ascii (s : List Char)
    (hascii : ∀ c ∈ s, c.toNat < 128) (hlen : s.length ≤ 32767) :
    ∃ bytes, write_string [] s = some bytes ∧
      read_string bytes 0 = some (Except.ok (s, bytes.length)) := by
  have h16 : utf16Len s = s.length := utf16Len_ascii s hascii
  have h8 : utf8Bytes s = s.map Char.toNat := utf8Bytes_ascii s hascii
  have hlen8 : (utf8Bytes s).length = s.length := by rw [h8, List.length_map]
  refine ⟨writeVarLoop s.length ++ utf8Bytes s, ?_, ?_⟩
  · unfold write_string
    rw [if_neg (by omega : ¬ 32767 < utf16Len s), h16]
    unfold write_var_int
    rw [toUnsigned_ofNat 32 s.length (by norm_num; omega), List.nil_append]
  · have hrv : read_var_int (writeVarLoop s.length ++ utf8Bytes s) 0
        = some ((s.length : Int), (writeVarLoop s.length).length) := by
      unfold read_var_int
      rw [List.drop_zero,
        readVarLoop_writeVarLoop 32 s.length (by norm_num; omega) (utf8Bytes s)]
      dsimp only
      rw [toSigned_ofNat 32 s.length (by norm_num) (by norm_num; omega)]
      norm_num
    unfold read_string
    rw [hrv]
    simp only [intAsUsize_ofNat s.length (by norm_num; omega)]
    rw [if_neg (by
      simp only [List.length_append, hlen8]
      omega)]
    rw [List.drop_left]
    have htake : List.take s.length (utf8Bytes s) = utf8Bytes s := by
      rw [← hlen8]
      exact List.take_length _
    rw [htake, h8, utf8Decode_ascii s hascii]
    dsimp only
    simp only [List.length_append, hlen8, List.length_map]

/-- Witness for C1 (amended) on a concrete ASCII string. -/
theorem string_roundtrip_ascii_witness :
    ∃ bytes, write_string [] ['h', 'i'] = some bytes ∧
      read_string bytes 0 = some (Except.ok (['h', 'i'], bytes.length)) :=
  string_roundtrip_ascii ['h', 'i'] (by decide) (by decide)

/-- Counterexample for C1 as stated: the one-character string "é"
(U+00E9, UTF-16 length 1 ≤ 32767) does not round-trip.  `write_string`
uses the UTF-16 code-unit count (1) as the length, but `read_string`
interprets that count as a byte count, slices a single byte out of the
two-byte UTF-8 encoding, and fails UTF-8 validation. -/
theorem string_roundtrip_claim_counterexample :
    write_string [] [Char.ofNat 0xE9] = some [1, 0xC3, 0xA9] ∧
    read_string [1, 0xC3, 0xA9] 0
      = some (Except.error StringReadError.invalidData) := by
  constructor <;> rfl

/-- C3 (amended): `write_string` on a string whose UTF-16 code-unit
count exceeds 32767 panics ("String is too long for the Minecraft
protocol!", modelled as `none`) rather than returning a recoverable
`StringTooLong` error (no such error type exists in the code). -/
theorem write_string_too_long_panics (buffer : List Nat) (s : List Char)
    (h : 32767 < utf16Len s) : write_string buffer s = none := by
  unfold write_string
  rw [if_pos h]

/-- Witness for C3 (amended) on a concrete over-long string. -/
theorem write_string_too_long_panics_witness :
    write_string [7] (List.replicate 40000 'b') = none :=
  write_string_too_long_panics [7] (List.replicate 40000 'b')
    (by rw [utf16Len_replicate]; decide)

/-- Counterexample for C3 as stated: 32768 repeated ASCII characters
make `write_string` panic (modelled as `none`); no recoverable
`StringTooLong` value is produced. -/
theorem write_string_claim_counterexample :
    write_string [] (List.replicate 32768 'a') = none := by
  unfold write_string
  rw [if_pos (show 32767 < utf16Len (List.replicate 32768 'a') by
    rw [utf16Len_replicate]; decide)]

/-- Modelled from the spec: `write_u16` lives in src/utils/server/u16.rs,
which is not among the provided sources; spec §4.3 defines it as
appending a 16-bit unsigned integer to the buffer in big-endian byte
order. -/
def write_u16 (buf : List Nat) (v : Nat) : List Nat :=
  buf ++ [v % 65536 / 256, v % 256]

/-- Big-endian 16-bit read, the spec-side inverse of `write_u16` used
only to state the decode direction of the framing property (the code
never parses ports back; spec §4.3). -/
def read_u16 (data : List Nat) (i : Nat) : Nat :=
  data.getD i 0 * 256 + data.getD (i + 1) 0

/-- Packet id of the handshake packet (src/utils/server/ping.rs, line 27). -/
def HANDSHAKE_ID : Int := 0

/-- Packet id of the status request (line 28). -/
def STATUS_REQUEST_ID : Int := 0

/-- Next-state value for a status handshake (line 29). -/
def NEXT_STATE_STATUS : Int := 1

/-- Embedding of `packet` (src/utils/server/ping.rs, lines 184-196): the
payload writer runs on a buffer holding the varint packet id, and the
result is prefixed with the payload's byte length (`len() as i32`) as a
varint. -/
def packet (id : Int) (write : List Nat → List Nat) : List Nat :=
  let payload := write (write_var_int [] id)
  write_var_int [] (toSigned 32 payload.length) ++ payload

/-- Embedding of `handshake_packet` (lines 198-205): payload is varint
protocol version, length-prefixed address string, big-endian port and
varint next-state.  `none` is the panic propagated from `write_string`
on an over-long address. -/
def handshake_packet (version : Int) (address : List Char) (port : Nat) :
    Option (List Nat) :=
  match write_string (write_var_int [] version) address with
  | none => none
  | some verAddr =>
    some (packet HANDSHAKE_ID
      (fun buf => write_var_int (write_u16 (buf ++ verAddr) port) NEXT_STATE_STATUS))

/-- Embedding of `status_request_packet` (lines 207-209). -/
def status_request_packet : List Nat := packet STATUS_REQUEST_ID (fun buf => buf)

/-- C6: every packet built by the framing function is a varint total
length followed by the varint packet id and the payload, the leading
varint decoding to the exact byte length of everything after it; and for
the handshake packet with protocol 770, address "example.com", port
25565 and next-state 1, decoding the bytes after the length prefix
recovers those same four fields. -/
theorem packet_framing :
    (∀ (id : Int) (w : List Nat → List Nat),
      (w (write_var_int [] id)).length < 2 ^ 31 →
      ∃ k, read_var_int (packet id w) 0
          = some ((((packet id w).drop k).length : Int), k) ∧
        (packet id w).drop k = w (write_var_int [] id)) ∧
    (∃ pkt, handshake_packet 770 "example.com".data 25565 = some pkt ∧
      read_var_int pkt 0 = some (((pkt.drop 1).length : Int), 1) ∧
      read_var_int pkt 1 = some (HANDSHAKE_ID, 2) ∧
      read_var_int pkt 2 = some (770, 4) ∧
      read_string pkt 4 = some (Except.ok ("example.com".data, 16)) ∧
      read_u16 pkt 16 = 25565 ∧
      read_var_int pkt 18 = some (NEXT_STATE_STATUS, pkt.length)) := by
  constructor
  · intro id w hlen
    have hlen31 : (w (write_var_int [] id)).length < 2 ^ (32 - 1) := by
      norm_num
      omega
    have hsig : toSigned 32 (w (write_var_int [] id)).length
        = ((w (write_var_int [] id)).length : Int) :=
      toSigned_ofNat 32 _ (by norm_num) hlen31
    have hwnil : ∀ n : Nat, n < 2 ^ 32 → write_var_int [] ((n : Nat) : Int) = writeVarLoop n := by
      intro n hn
      unfold write_var_int
      rw [toUnsigned_ofNat 32 n hn, List.nil_append]
    have hpkt : packet id w
        = writeVarLoop (w (write_var_int [] id)).length ++ w (write_var_int [] id) := by
      show write_var_int [] (toSigned 32 (w (write_var_int [] id)).length)
          ++ w (write_var_int [] id) = _
      rw [hsig, hwnil _ (lt_trans hlen (by norm_num))]
    refine ⟨(writeVarLoop (w (write_var_int [] id)).length).length, ?_, ?_⟩
    · rw [hpkt]
      unfold read_var_int
      rw [List.drop_zero, readVarLoop_writeVarLoop 32 _ (by norm_num; omega) _]
      dsimp only
      rw [List.drop_left, hsig]
      norm_num
    · rw [hpkt, List.drop_left]
  · refine ⟨[18, 0, 130, 6, 11, 101, 120, 97, 109, 112, 108, 101, 46, 99, 111, 109,
      99, 221, 1], ?_, ?_, ?_, ?_, ?_, ?_, ?_⟩ <;> rfl

/-- Witness for C6 on the concrete status-request packet. -/
theorem packet_framing_witness :
    ∃ k, read_var_int (packet 0 (fun buf => buf)) 0
        = some ((((packet 0 (fun buf => buf)).drop k).length : Int), k) ∧
      (packet 0 (fun buf => buf)).drop k = (fun buf => buf) (write_var_int [] 0) :=
  packet_framing.1 0 (fun buf => buf) (by decide)

/-- Model of serde_json's `Value`: null, boolean, number, string, array
or object (an ordered list of key-value fields; `get` takes the first
binding of a key, which for maps produced by serde_json is the only
one). -/
inductive JValue
  | null
  | bool (b : Bool)
  | num (n : Int)
  | str (s : String)
  | arr (elems : List JValue)
  | obj (fields : List (String × JValue))

mutual

/-- Embedding of `extract_text` (src/utils/server/ping.rs, lines
166-182): a string yields itself, an array the concatenation of its
elements' texts, an object its "text" field's text followed by its
"extra" field's text, anything else the empty string. -/
def extract_text : JValue → String
  | JValue.str s => s
  | JValue.arr elems => extractTextList elems
  | JValue.obj fields => extractTextField fields "text" ++ extractTextField fields "extra"
  | _ => ""

/-- The `arr.iter().map(extract_text).collect::<String>()` of the
source: in-order concatenation of the flattened elements. -/
def extractTextList : List JValue → String
  | [] => ""
  | v :: rest => extract_text v ++ extractTextList rest

/-- The `map.get(key)` of the source followed by flattening: the
flattened text of the first binding of `key`, or the empty string when
the key is absent. -/
def extractTextField : List (String × JValue) → String → String
  | [], _ => ""
  | (k, v) :: rest, key =>
    if k = key then extract_text v else extractTextField rest key

end

theorem extractTextList_eq_foldr (elems : List JValue) :
    extractTextList elems = (elems.map extract_text).foldr (· ++ ·) "" := by
  induction elems with
  | nil => rfl
  | cons v rest ih => rw [extractTextList, List.map_cons, List.foldr_cons, ih]

theorem extractTextField_eq_lookup (fields : List (String × JValue)) (key : String) :
    extractTextField fields key
      = (((fields.lookup key).map extract_text).getD "") := by
  induction fields with
  | nil => rfl
  | cons kv rest ih =>
    obtain ⟨k, v⟩ := kv
    rw [extractTextField, List.lookup]
    by_cases hk : k = key
    · have hbeq : (key == k) = true := by simp [hk]
      rw [if_pos hk, hbeq]
      rfl
    · have hbeq : (key == k) = false := by simp [ne_comm.mp hk]
      rw [if_neg hk, hbeq]
      exact ih

/-- C7: rich-text flattening — a string flattens to itself, an array to
the in-order concatenation of its elements' flattened text, an object to
its flattened "text" field followed by its flattened "extra" field with
all other keys ignored, and any other JSON value to the empty string;
together with the three concrete examples of the spec. -/
theorem extract_text_spec :
    (∀ s : String, extract_text (JValue.str s) = s) ∧
    (∀ elems : List JValue,
      extract_text (JValue.arr elems)
        = (elems.map extract_text).foldr (· ++ ·) "") ∧
    (∀ fields : List (String × JValue),
      extract_text (JValue.obj fields)
        = ((fields.lookup "text").map extract_text).getD ""
          ++ ((fields.lookup "extra").map extract_text).getD "") ∧
    extract_text JValue.null = "" ∧
    (∀ b, extract_text (JValue.bool b) = "") ∧
    (∀ n, extract_text (JValue.num n) = "") ∧
    extract_text (JValue.obj [("text", JValue.str "A"),
      ("extra", JValue.arr [JValue.obj [("text", JValue.str "B")],
        JValue.obj [("text", JValue.str "C"),
          ("extra", JValue.arr [JValue.obj [("text", JValue.str "D")]])]])])
      = "ABCD" ∧
    extract_text (JValue.str "hello") = "hello" ∧
    extract_text (JValue.obj []) = "" := by
  refine ⟨fun s => rfl, ?_, ?_, rfl, fun b => rfl, fun n => rfl, rfl, rfl, rfl⟩
  · intro elems
    rw [extract_text, extractTextList_eq_foldr]
  · intro fields
    rw [extract_text, extractTextField_eq_lookup, extractTextField_eq_lookup]

/-- The fields of `ServerStatus` that serde actually deserializes
(src/utils/server/ping.rs, lines 51-60); the `description` field is
`#[serde(skip)]` and always comes out of deserialization as the default
empty string, so it is not part of the parsed data. -/
structure RawStatus where
  version : String × Int
  players : Nat × Nat
  raw_description : JValue
  favicon : Option String

/-- Mirror of `ServerStatus` (src/utils/server/ping.rs, lines 51-60);
`version` is the pair (name, protocol) and `players` the pair
(max, online), the sub-structures that play no role in the claims. -/
structure ServerStatus where
  version : String × Int
  players : Nat × Nat
  raw_description : JValue
  description : String
  favicon : Option String

/-- A connect-phase or lookup I/O error, as carried inside
`PingError::HostResolutionFailed`. -/
inductive IoError
  | refused
  | unreachable
  | reset
  | other (msg : String)
deriving DecidableEq

/-- Mirror of `PingError` (src/utils/server/ping.rs, lines 32-48).  Note
that the enum has no `ConnectFailed` variant. -/
inductive PingError
  | SrvResolutionFailed (msg : String)
  | HostResolutionFailed (e : IoError)
  | ConnectTimeout
  | Protocol (msg : String)
  | JsonError (msg : String)
deriving DecidableEq

/-- Embedding of `validate_packet_id` (src/utils/server/ping.rs, lines
159-164). -/
def validate_packet_id (id : Int) : Except PingError Unit :=
  if id ≠ STATUS_REQUEST_ID then
    Except.error (PingError.Protocol ("unexpected packet id: " ++ toString id))
  else Except.ok ()

/-- Tail of `ping` (src/utils/server/ping.rs, lines 96-103) once the
response has been read: validate the packet id, take the outcome of
`serde_json::from_str` (supplied as an `Except`; the skipped
`description` field defaults to the empty string), then overwrite
`description` with the flattening of `raw_description`. -/
def ping_finish (packetId : Int) (parsed : Except String RawStatus) :
    Except PingError ServerStatus :=
  match validate_packet_id packetId with
  | Except.error e => Except.error e
  | Except.ok _ =>
    match parsed with
    | Except.error e => Except.error (PingError.JsonError e)
    | Except.ok raw =>
      let status : ServerStatus :=
        { version := raw.version, players := raw.players,
          raw_description := raw.raw_description, description := "",
          favicon := raw.favicon }
      Except.ok { status with description := extract_text status.raw_description }

/-- C8: every `ServerStatus` that `ping` returns successfully satisfies
the invariant that `description` is the flattening of
`raw_description`; the field is derived after JSON parsing, never
deserialized. -/
theorem ping_description_invariant (packetId : Int)
    (parsed : Except String RawStatus) (s : ServerStatus)
    (h : ping_finish packetId parsed = Except.ok s) :
    s.description = extract_text s.raw_description := by
  unfold ping_finish at h
  cases hval : validate_packet_id packetId with
  | error e => rw [hval] at h; cases h
  | ok u =>
    rw [hval] at h
    cases parsed with
    | error e => cases h
    | ok raw =>
      dsimp only at h
      injection h with h'
      subst h'
      rfl

/-- Witness for C8 on a concrete successful ping outcome. -/
theorem ping_description_invariant_witness :
    ({ version := ("1.21.5", 770), players := (20, 3),
       raw_description := JValue.str "hi", description := "hi",
       favicon := none } : ServerStatus).description
      = extract_text ({ version := ("1.21.5", 770), players := (20, 3),
                        raw_description := JValue.str "hi", description := "hi",
                        favicon := none } : ServerStatus).raw_description :=
  ping_description_invariant 0
    (Except.ok { version := ("1.21.5", 770), players := (20, 3),
                 raw_description := JValue.str "hi", favicon := none }) _ rfl

/-- One SRV record as returned by the resolver: target host and port. -/
structure SrvRecord where
  target : String
  port : Nat

/-- Embedding of `resolve_host` (src/utils/server/ping.rs, lines
105-123).  The two environment effects are oracle parameters: `isIp` is
the outcome of `hostname.parse::<IpAddr>().is_ok()`, and `srv` the
outcome of the `_minecraft._tcp.<hostname>` SRV lookup (`Except.error`
when the lookup mechanism itself errors, otherwise the record list). -/
def resolve_host (hostname : String) (defaultPort : Nat) (isIp : Bool)
    (srv : Except Unit (List SrvRecord)) : Except PingError (String × Nat) :=
  if isIp then Except.ok (hostname, defaultPort)
  else
    match srv with
    | Except.ok lookup =>
      match lookup.head? with
      | some record => Except.ok (record.target, record.port)
      | none => Except.error (PingError.SrvResolutionFailed "no SRV records found")
    | Except.error _ => Except.ok (hostname, defaultPort)

/-- C9: a literal IP bypasses the SRV lookup entirely and returns the
input host with the caller-supplied default port (whatever the lookup
would have said); a lookup that succeeds with zero records fails with
`SrvResolutionFailed`; a lookup whose mechanism errors falls back to the
original hostname and default port successfully. -/
theorem resolve_host_spec :
    (∀ (hostname : String) (port : Nat) (srv : Except Unit (List SrvRecord)),
      resolve_host hostname port true srv = Except.ok (hostname, port)) ∧
    (∀ (hostname : String) (port : Nat),
      resolve_host hostname port false (Except.ok [])
        = Except.error (PingError.SrvResolutionFailed "no SRV records found")) ∧
    (∀ (hostname : String) (port : Nat),
      resolve_host hostname port false (Except.error ())
        = Except.ok (hostname, port)) :=
  ⟨fun _ _ _ => rfl, fun _ _ => rfl, fun _ _ => rfl⟩

/-- The outcome of the timed TCP connect attempt
(`timeout(CONNECT_TIMEOUT, TcpStream::connect(..))`). -/
inductive TcpOutcome
  | success
  | failure (e : IoError)
  | timedOut

/-- Embedding of `connect` (src/utils/server/ping.rs, lines 125-139).
The forward lookup outcome (`tokio::net::lookup_host`: an error, or the
first address if any) and the connect outcome are oracle parameters. -/
def connect (lookup : Except IoError (Option String)) (tcp : TcpOutcome) :
    Except PingError Unit :=
  match lookup with
  | Except.error e => Except.error (PingError.HostResolutionFailed e)
  | Except.ok none => Except.error (PingError.HostResolutionFailed
      (IoError.other "no addresses found"))
  | Except.ok (some _addr) =>
    match tcp with
    | TcpOutcome.success => Except.ok ()
    | TcpOutcome.failure e => Except.error (PingError.HostResolutionFailed e)
    | TcpOutcome.timedOut => Except.error PingError.ConnectTimeout

/-- C4 (amended): a connection failure yields
`HostResolutionFailed` wrapping the underlying I/O error — the code has
no `ConnectFailed` variant, and the same variant also carries lookup
failures — while exceeding the 5-second timeout yields the distinct
`ConnectTimeout` variant, so a timeout remains distinguishable from a
connect failure by the variant alone. -/
theorem connect_error_variants :
    (∀ (addr : String) (e : IoError),
      connect (Except.ok (some addr)) (TcpOutcome.failure e)
        = Except.error (PingError.HostResolutionFailed e)) ∧
    (∀ addr : String,
      connect (Except.ok (some addr)) TcpOutcome.timedOut
        = Except.error PingError.ConnectTimeout) ∧
    (∀ e : IoError, PingError.HostResolutionFailed e ≠ PingError.ConnectTimeout) :=
  ⟨fun _ _ => rfl, fun _ => rfl, fun _ h => PingError.noConfusion h⟩

/-- Counterexample for C4 as stated: a refused connection produces
`HostResolutionFailed` (not a `ConnectFailed` variant, which does not
exist in `PingError`), and a failed host lookup produces the very same
error value, so the variant does not identify connection failures. -/
theorem connect_failed_claim_counterexample :
    connect (Except.ok (some "192.0.2.1")) (TcpOutcome.failure IoError.refused)
      = Except.error (PingError.HostResolutionFailed IoError.refused) ∧
    connect (Except.error IoError.refused) TcpOutcome.success
      = Except.error (PingError.HostResolutionFailed IoError.refused) :=
  ⟨rfl, rfl⟩

/-- Witness for C4 (amended) at concrete outcomes. -/
theorem connect_error_variants_witness :
    connect (Except.ok (some "192.0.2.5")) (TcpOutcome.failure IoError.reset)
      = Except.error (PingError.HostResolutionFailed IoError.reset) ∧
    connect (Except.ok (some "192.0.2.5")) TcpOutcome.timedOut
      = Except.error PingError.ConnectTimeout ∧
    PingError.HostResolutionFailed IoError.reset ≠ PingError.ConnectTimeout :=
  ⟨connect_error_variants.1 "192.0.2.5" IoError.reset,
   connect_error_variants.2.1 "192.0.2.5",
   connect_error_variants.2.2 IoError.reset⟩
